import Mathlib

/-!
Verification of the event-driven file-processing pipeline in `src/handler.js`
(AgileVisionOrganization/step-functions-demo).

The four exported Lambda handlers (`executeWorkflow`, `processFile`,
`moveFile`, `sendEmail`) are shallowly embedded as pure functions producing a
trace of observable actions (external-service calls, terminal
`context.succeed`/`context.fail` signals, and uncaught exceptions), with the
outcomes of external calls supplied as explicit parameters.

The stage-sequencing engine used by every handler is the `async.waterfall`
combinator of the `async` library, modelled here per its documented
semantics: tasks run strictly in sequence, each task's callback result feeds
the next task; a task that passes an error to its callback short-circuits the
chain and the error goes to the waterfall's final callback (a no-op when the
caller omitted it, as `executeWorkflow` does); a task that raises
synchronously is NOT caught by the combinator — the exception propagates to
the combinator's caller and no final callback ever fires.
-/

namespace StepFunctionsDemo

namespace Waterfall

/-- How a waterfall task terminates: it either fires its completion callback
with a success value, fires it with an error value, or raises synchronously
(in which case the callback never fires). -/
inductive StepSignal (ε ρ : Type) where
  | ok (r : ρ)
  | err (e : ε)
  | raised (e : ε)
deriving DecidableEq

/-- Observable events of one waterfall run: task `i` being invoked, task `i`'s
completion callback firing, the chain's final callback firing (with the last
result or with a task's error), or an uncaught synchronous exception escaping
the combinator. -/
inductive WEvent (ε ρ : Type) where
  | started (i : Nat)
  | completed (i : Nat) (s : StepSignal ε ρ)
  | finalOk (r : ρ)
  | finalErr (e : ε)
  | uncaught (e : ε)
deriving DecidableEq

/-- The event trace of `async.waterfall` run over `steps`, with `k` the index
of the first remaining step and `acc` the result handed down by the previous
step. Tasks run one after the other; an error callback stops the chain and
fires the final callback; a synchronous raise stops the chain with no final
callback at all. -/
def waterfallTrace {ε ρ : Type} (steps : List (ρ → StepSignal ε ρ)) (k : Nat) (acc : ρ) :
    List (WEvent ε ρ) :=
  match steps with
  | [] => [WEvent.finalOk acc]
  | s :: rest =>
    WEvent.started k ::
      match s acc with
      | StepSignal.ok r => WEvent.completed k (StepSignal.ok r) :: waterfallTrace rest (k + 1) r
      | StepSignal.err e => [WEvent.completed k (StepSignal.err e), WEvent.finalErr e]
      | StepSignal.raised e => [WEvent.uncaught e]

theorem waterfallTrace_nil {ε ρ : Type} (k : Nat) (acc : ρ) :
    waterfallTrace ([] : List (ρ → StepSignal ε ρ)) k acc = [WEvent.finalOk acc] := rfl

theorem waterfallTrace_cons_ok {ε ρ : Type} (s : ρ → StepSignal ε ρ)
    (rest : List (ρ → StepSignal ε ρ)) (k : Nat) (acc r : ρ)
    (hs : s acc = StepSignal.ok r) :
    waterfallTrace (s :: rest) k acc =
      WEvent.started k :: WEvent.completed k (StepSignal.ok r) ::
        waterfallTrace rest (k + 1) r := by
  rw [waterfallTrace, hs]

theorem waterfallTrace_cons_err {ε ρ : Type} (s : ρ → StepSignal ε ρ)
    (rest : List (ρ → StepSignal ε ρ)) (k : Nat) (acc : ρ) (e : ε)
    (hs : s acc = StepSignal.err e) :
    waterfallTrace (s :: rest) k acc =
      [WEvent.started k, WEvent.completed k (StepSignal.err e), WEvent.finalErr e] := by
  rw [waterfallTrace, hs]

theorem waterfallTrace_cons_raised {ε ρ : Type} (s : ρ → StepSignal ε ρ)
    (rest : List (ρ → StepSignal ε ρ)) (k : Nat) (acc : ρ) (e : ε)
    (hs : s acc = StepSignal.raised e) :
    waterfallTrace (s :: rest) k acc = [WEvent.started k, WEvent.uncaught e] := by
  rw [waterfallTrace, hs]

theorem started_lb {ε ρ : Type} (steps : List (ρ → StepSignal ε ρ)) (k : Nat) (acc : ρ)
    (j : Nat) (h : WEvent.started j ∈ waterfallTrace steps k acc) : k ≤ j := by
  induction steps generalizing k acc with
  | nil => simp [waterfallTrace_nil] at h
  | cons s rest ih =>
    cases hs : s acc with
    | ok r =>
      rw [waterfallTrace_cons_ok s rest k acc r hs] at h
      rcases List.mem_cons.mp h with h0 | h1
      · injection h0 with hk
        omega
      · rcases List.mem_cons.mp h1 with h2 | h3
        · exact absurd h2 (by simp)
        · have := ih (k + 1) r h3
          omega
    | err e =>
      rw [waterfallTrace_cons_err s rest k acc e hs] at h
      rcases List.mem_cons.mp h with h0 | h1
      · injection h0 with hk
        omega
      · simp at h1
    | raised e =>
      rw [waterfallTrace_cons_raised s rest k acc e hs] at h
      rcases List.mem_cons.mp h with h0 | h1
      · injection h0 with hk
        omega
      · simp at h1

theorem completed_lb {ε ρ : Type} (steps : List (ρ → StepSignal ε ρ)) (k : Nat) (acc : ρ)
    (i : Nat) (s0 : StepSignal ε ρ) (h : WEvent.completed i s0 ∈ waterfallTrace steps k acc) :
    k ≤ i := by
  induction steps generalizing k acc with
  | nil => simp [waterfallTrace_nil] at h
  | cons s rest ih =>
    cases hs : s acc with
    | ok r =>
      rw [waterfallTrace_cons_ok s rest k acc r hs] at h
      rcases List.mem_cons.mp h with h0 | h1
      · exact absurd h0 (by simp)
      · rcases List.mem_cons.mp h1 with h2 | h3
        · injection h2 with hk hsg
          omega
        · have := ih (k + 1) r h3
          omega
    | err e =>
      rw [waterfallTrace_cons_err s rest k acc e hs] at h
      rcases List.mem_cons.mp h with h0 | h1
      · exact absurd h0 (by simp)
      · rcases List.mem_cons.mp h1 with h2 | h3
        · injection h2 with hk hsg
          omega
        · simp at h3
    | raised e =>
      rw [waterfallTrace_cons_raised s rest k acc e hs] at h
      simp at h

/-- Step `j + 1` is invoked only after step `j`'s completion callback has
fired with a non-error result: the trace contains `completed j (ok r)`
strictly before `started (j + 1)`. -/
theorem started_after {ε ρ : Type} (steps : List (ρ → StepSignal ε ρ)) (k : Nat) (acc : ρ)
    (j : Nat) (hk : k ≤ j) (h : WEvent.started (j + 1) ∈ waterfallTrace steps k acc) :
    ∃ r, List.Sublist [WEvent.completed j (StepSignal.ok r), WEvent.started (j + 1)]
      (waterfallTrace steps k acc) := by
  induction steps generalizing k acc with
  | nil => simp [waterfallTrace_nil] at h
  | cons s rest ih =>
    cases hs : s acc with
    | ok r =>
      rw [waterfallTrace_cons_ok s rest k acc r hs] at h ⊢
      rcases List.mem_cons.mp h with h0 | h1
      · injection h0 with hk2
        omega
      · rcases List.mem_cons.mp h1 with h2 | h3
        · exact absurd h2 (by simp)
        · by_cases hjk : j = k
          · subst hjk
            exact ⟨r, List.Sublist.cons _
              (List.Sublist.cons₂ _ (List.singleton_sublist.mpr h3))⟩
          · have hk1 : k + 1 ≤ j := by omega
            obtain ⟨r2, hsub⟩ := ih (k + 1) r hk1 h3
            exact ⟨r2, List.Sublist.cons _ (List.Sublist.cons _ hsub)⟩
    | err e =>
      rw [waterfallTrace_cons_err s rest k acc e hs] at h
      rcases List.mem_cons.mp h with h0 | h1
      · injection h0 with hk2
        omega
      · simp at h1
    | raised e =>
      rw [waterfallTrace_cons_raised s rest k acc e hs] at h
      rcases List.mem_cons.mp h with h0 | h1
      · injection h0 with hk2
        omega
      · simp at h1

/-- A step that passes an error to its callback short-circuits the chain: the
final callback fires with that very error, and no later step is ever
started. -/
theorem err_shortcircuit {ε ρ : Type} (steps : List (ρ → StepSignal ε ρ)) (k : Nat) (acc : ρ)
    (i : Nat) (e : ε) (h : WEvent.completed i (StepSignal.err e) ∈ waterfallTrace steps k acc) :
    WEvent.finalErr e ∈ waterfallTrace steps k acc ∧
      ∀ j, i < j → WEvent.started j ∉ waterfallTrace steps k acc := by
  induction steps generalizing k acc with
  | nil => simp [waterfallTrace_nil] at h
  | cons s rest ih =>
    cases hs : s acc with
    | ok r =>
      rw [waterfallTrace_cons_ok s rest k acc r hs] at h ⊢
      rcases List.mem_cons.mp h with h0 | h1
      · exact absurd h0 (by simp)
      · rcases List.mem_cons.mp h1 with h2 | h3
        · injection h2 with hk hsig
          exact absurd hsig (by simp)
        · obtain ⟨hfin, hnost⟩ := ih (k + 1) r h3
          have hki : k + 1 ≤ i := completed_lb rest (k + 1) r i _ h3
          constructor
          · exact List.mem_cons_of_mem _ (List.mem_cons_of_mem _ hfin)
          · intro j hj hmem
            rcases List.mem_cons.mp hmem with hm0 | hm1
            · injection hm0 with hk2
              omega
            · rcases List.mem_cons.mp hm1 with hm2 | hm3
              · exact absurd hm2 (by simp)
              · exact hnost j hj hm3
    | err e2 =>
      rw [waterfallTrace_cons_err s rest k acc e2 hs] at h ⊢
      rcases List.mem_cons.mp h with h0 | h1
      · exact absurd h0 (by simp)
      · rcases List.mem_cons.mp h1 with h2 | h3
        · injection h2 with hk hsig
          injection hsig with he
          subst hk
          subst he
          refine ⟨by simp, ?_⟩
          intro j hj hmem
          rcases List.mem_cons.mp hmem with hm0 | hm1
          · injection hm0 with hk2
            omega
          · simp at hm1
        · simp at h3
    | raised e2 =>
      rw [waterfallTrace_cons_raised s rest k acc e2 hs] at h
      simp at h

/-- A step that raises synchronously is not caught by the combinator: the
chain is abandoned and the final callback — success or failure — never
fires. -/
theorem uncaught_no_final {ε ρ : Type} (steps : List (ρ → StepSignal ε ρ)) (k : Nat) (acc : ρ)
    (e : ε) (h : WEvent.uncaught e ∈ waterfallTrace steps k acc) :
    (∀ r, WEvent.finalOk r ∉ waterfallTrace steps k acc) ∧
      (∀ e2, WEvent.finalErr e2 ∉ waterfallTrace steps k acc) := by
  induction steps generalizing k acc with
  | nil => simp [waterfallTrace_nil] at h
  | cons s rest ih =>
    cases hs : s acc with
    | ok r =>
      rw [waterfallTrace_cons_ok s rest k acc r hs] at h ⊢
      rcases List.mem_cons.mp h with h0 | h1
      · exact absurd h0 (by simp)
      · rcases List.mem_cons.mp h1 with h2 | h3
        · exact absurd h2 (by simp)
        · obtain ⟨hok, herr⟩ := ih (k + 1) r h3
          constructor
          · intro r2 hmem
            rcases List.mem_cons.mp hmem with hm0 | hm1
            · exact absurd hm0 (by simp)
            · rcases List.mem_cons.mp hm1 with hm2 | hm3
              · exact absurd hm2 (by simp)
              · exact hok r2 hm3
          · intro e2 hmem
            rcases List.mem_cons.mp hmem with hm0 | hm1
            · exact absurd hm0 (by simp)
            · rcases List.mem_cons.mp hm1 with hm2 | hm3
              · exact absurd hm2 (by simp)
              · exact herr e2 hm3
    | err e2 =>
      rw [waterfallTrace_cons_err s rest k acc e2 hs] at h
      simp at h
    | raised e2 =>
      rw [waterfallTrace_cons_raised s rest k acc e2 hs] at h ⊢
      refine ⟨?_, ?_⟩ <;> intro x hmem <;> simp at hmem

end Waterfall

/-- A JavaScript error payload as it travels through a callback chain: either
a bare thrown string (as in the lookup step of `executeWorkflow`) or an
`Error` object (as produced by the AWS SDK callbacks), identified by its
message. -/
inductive JsError where
  | str (s : String)
  | errObj (message : String)
deriving DecidableEq

/-- One entry of `event.Records` as consumed by `executeWorkflow`; the nested
`s3.bucket.name` / `s3.object.key` fields are flattened. -/
structure S3Record where
  bucketName : String
  objectKey : String
deriving DecidableEq

/-- The incoming Lambda event of `executeWorkflow`: either it has a `Records`
field (with the listed entries) or it does not. -/
inductive LambdaEvent where
  | records (recs : List S3Record)
  | noRecords
deriving DecidableEq

/-- One descriptor from `listStateMachines`, as consumed by the search loop of
`executeWorkflow` (only the `name` and `stateMachineArn` fields are read). -/
structure SMDescriptor where
  name : String
  stateMachineArn : String
deriving DecidableEq

/-- The (unused) data returned by a successful `startExecution` call. -/
structure StartExecutionOutput where
  executionArn : String
deriving DecidableEq

/-- `JSON.stringify` escaping of one character inside a JSON string literal. -/
def jsonEscapeChar (c : Char) : String :=
  if c = '"' then "\\\""
  else if c = '\\' then "\\\\"
  else if c = '\n' then "\\n"
  else if c = '\r' then "\\r"
  else if c = '\t' then "\\t"
  else if c.toNat < 32 then
    "\\u00" ++ String.singleton (Nat.digitChar (c.toNat / 16)) ++
      String.singleton (Nat.digitChar (c.toNat % 16))
  else String.singleton c

/-- `JSON.stringify` of a string value. -/
def jsonQuote (s : String) : String :=
  "\"" ++ String.join (s.data.map jsonEscapeChar) ++ "\""

/-- `JSON.stringify({ objectKey: objectKey, bucketName: bucketName })` as
built on line 45 of `src/handler.js` (property order follows the object
literal). -/
def stringifyInput (objectKey bucketName : String) : String :=
  "\x7b" ++ jsonQuote "objectKey" ++ ":" ++ jsonQuote objectKey ++ "," ++
    jsonQuote "bucketName" ++ ":" ++ jsonQuote bucketName ++ "\x7d"

/-- The search loop of `executeWorkflow` (lines 30-36): scan the listing in
order and return the `stateMachineArn` of the first descriptor whose `name`
equals the requested name. -/
def findArn : List SMDescriptor → String → Option String
  | [], _ => none
  | item :: rest, nm =>
    if item.name = nm then some item.stateMachineArn else findArn rest nm

/-- The bare string thrown on line 38 of `src/handler.js` when no state
machine matches. -/
def lookupFailureMessage : String := "Step function with the given name doesn\x27t exist"

/-- The message passed to `context.fail` when the event has no `Records`
field (line 53 of `src/handler.js`). -/
def noRecordsMessage : String :=
  "Incoming message doesn\x27t contain \"Records\", it will be ignored"

/-- Observable actions of one `executeWorkflow` invocation. -/
inductive EWAction where
  | callListStateMachines
  | callStartExecution (stateMachineArn : String) (input : String)
  | ctxSucceed (value : String)
  | ctxFail (message : String)
  | uncaughtException (e : JsError)
deriving DecidableEq

/-- The action trace of `module.exports.executeWorkflow` (lines 16-55 of
`src/handler.js`), given the incoming event, `process.env.STEP_FUNCTION_NAME`,
and the callback outcomes of the two AWS calls.

Faithful points of the source: the waterfall is given NO final callback, so a
task error is handed to the default no-op callback and nothing further
happens (no terminal signal); the lookup step throws a bare string when no
name matches, which the waterfall does not catch; only `event.Records[0]` is
read, so an empty `Records` array makes `eventData.s3` raise a `TypeError`;
on full success the last task calls `context.succeed('OK')`. -/
def executeWorkflowTrace (event : LambdaEvent) (stateMachineName : String)
    (listResult : Except JsError (List SMDescriptor))
    (startResult : Except JsError StartExecutionOutput) : List EWAction :=
  match event with
  | LambdaEvent.noRecords => [EWAction.ctxFail noRecordsMessage]
  | LambdaEvent.records recs =>
    EWAction.callListStateMachines ::
      match listResult with
      | Except.error _ => []
      | Except.ok machines =>
        match findArn machines stateMachineName with
        | none => [EWAction.uncaughtException (JsError.str lookupFailureMessage)]
        | some arn =>
          match recs with
          | [] => [EWAction.uncaughtException
              (JsError.errObj "TypeError: Cannot read property of undefined")]
          | r :: _ =>
            EWAction.callStartExecution arn (stringifyInput r.objectKey r.bucketName) ::
              match startResult with
              | Except.error _ => []
              | Except.ok _ => [EWAction.ctxSucceed "OK"]

/-- Is this action a terminal completion signal (`context.succeed` or
`context.fail`)? -/
def isEWTerminal : EWAction → Bool
  | EWAction.ctxSucceed _ => true
  | EWAction.ctxFail _ => true
  | _ => false

/-- The terminal completion signals fired during one `executeWorkflow`
invocation. -/
def ewTerminalSignals (t : List EWAction) : List EWAction := t.filter isEWTerminal

/-- Is this action a `startExecution` call? -/
def isEWStartCall : EWAction → Bool
  | EWAction.callStartExecution _ _ => true
  | _ => false

/-- The `startExecution` calls issued during one `executeWorkflow`
invocation. -/
def ewStartCalls (t : List EWAction) : List EWAction := t.filter isEWStartCall

/-- The flat file event consumed by `processFile`, `moveFile` and `sendEmail`:
`{ bucketName: ..., objectKey: ... }`. -/
structure FileEvent where
  bucketName : String
  objectKey : String
deriving DecidableEq

/-- A DynamoDB attribute value as built by `processFile`: `{'S': v}` or
`{'N': v}`, where `v` is `data[i]` and is absent (`undefined`) when the
decoded row is shorter than three fields. -/
inductive AttrValue where
  | s (v : Option String)
  | n (v : Option String)
deriving DecidableEq

/-- The `Item` map passed to `dynamodb.putItem` for one decoded row
(lines 94-104 of `src/handler.js`): field 0 as string attribute `sensor_id`,
fields 1 and 2 as numeric attributes `timestamp` and `value`. -/
def rowToItem (data : List String) : List (String × AttrValue) :=
  [("sensor_id", AttrValue.s (data.get? 0)),
   ("timestamp", AttrValue.n (data.get? 1)),
   ("value", AttrValue.n (data.get? 2))]

/-- Split a character list at every occurrence of `sep` (the usual
string-split semantics: `n` separators yield `n + 1` pieces). -/
def splitOnChar (sep : Char) : List Char → List (List Char)
  | [] => [[]]
  | c :: cs =>
    if c = sep then [] :: splitOnChar sep cs
    else
      match splitOnChar sep cs with
      | [] => [[c]]
      | piece :: rest => (c :: piece) :: rest

/-- The row decoding performed by `csv.fromStream` for plain unquoted input:
one row per newline-separated line (a trailing newline produces no extra
row, empty lines produce no row), fields split on commas. -/
def parseCsv (content : String) : List (List String) :=
  (((splitOnChar (Char.ofNat 10) content.data).filter
      (fun line => !(line.isEmpty))).map
    (fun line => (splitOnChar ',' line).map (fun cs => String.mk cs)))

/-- Observable actions of one `processFile` invocation. `ingestionNext` is
the ingestion task invoking its waterfall continuation with success;
`writeSettled` is the eventual (unobserved) completion of one fire-and-forget
`putItem` call, with its success bit. -/
inductive PFAction where
  | callWaitForObjectExists (bucket key : String)
  | callGetObject (bucket key : String)
  | ingestionNext
  | callPutItem (tableName : String) (item : List (String × AttrValue))
  | writeSettled (item : List (String × AttrValue)) (ok : Bool)
  | ctxFail (message : String)
  | ctxSucceed (event : FileEvent)
deriving DecidableEq

/-- The action trace of `module.exports.processFile` (lines 68-120 of
`src/handler.js`), given the event, the callback outcome of the
`objectExists` wait, the object content decoded by the CSV stream, and the
eventual outcomes of the fire-and-forget row writes.

Faithful points of the source: after starting the stream decode the
ingestion task calls `next(null)` immediately (line 109), so the waterfall's
final callback — and with it `context.succeed(event)` — fires before any row
has even been written; each decoded row issues exactly one `putItem` call
with no completion callback, so the writes settle after the terminal signal
and their outcomes are never observed by the pipeline. -/
def processFileTrace (event : FileEvent) (waitResult : Except JsError Unit)
    (content : String) (writeResults : List Bool) : List PFAction :=
  PFAction.callWaitForObjectExists event.bucketName event.objectKey ::
    match waitResult with
    | Except.error _ => [PFAction.ctxFail "Execution failed"]
    | Except.ok _ =>
      PFAction.callGetObject event.bucketName event.objectKey ::
        PFAction.ingestionNext ::
          PFAction.ctxSucceed event ::
            (((parseCsv content).map
                (fun r => PFAction.callPutItem "sensor_data" (rowToItem r))) ++
              (((parseCsv content).zip writeResults).map
                (fun p => PFAction.writeSettled (rowToItem p.1) p.2)))

/-- Is this action a terminal completion signal of `processFile`? -/
def isPFTerminal : PFAction → Bool
  | PFAction.ctxFail _ => true
  | PFAction.ctxSucceed _ => true
  | _ => false

/-- The terminal completion signals fired during one `processFile`
invocation. -/
def pfTerminalSignals (t : List PFAction) : List PFAction := t.filter isPFTerminal

/-- Is this action a `putItem` call? -/
def isPFPutItem : PFAction → Bool
  | PFAction.callPutItem _ _ => true
  | _ => false

/-- The `putItem` calls issued during one `processFile` invocation. -/
def pfPutItemCalls (t : List PFAction) : List PFAction := t.filter isPFPutItem

/-- Is the character left unescaped by `encodeURIComponent`? -/
def isUriUnescapedChar (c : Char) : Bool :=
  c.isAlpha || c.isDigit || c = '-' || c = '_' || c = '.' || c = '!' ||
    c = '~' || c = '*' || c = Char.ofNat 39 || c = '(' || c = ')'

/-- Upper-case hexadecimal digit. -/
def hexDigitUpper (n : Nat) : Char :=
  if n < 10 then Char.ofNat (48 + n) else Char.ofNat (55 + n)

/-- UTF-8 byte sequence of one code point. -/
def utf8ByteList (n : Nat) : List Nat :=
  if n < 128 then [n]
  else if n < 2048 then [192 + n / 64, 128 + n % 64]
  else if n < 65536 then [224 + n / 4096, 128 + (n / 64) % 64, 128 + n % 64]
  else [240 + n / 262144, 128 + (n / 4096) % 64, 128 + (n / 64) % 64, 128 + n % 64]

/-- Percent-encoding of one byte. -/
def percentEncodeByte (b : Nat) : String :=
  "%" ++ String.singleton (hexDigitUpper (b / 16)) ++
    String.singleton (hexDigitUpper (b % 16))

/-- JavaScript `encodeURIComponent`, applied to the object key when building
`CopySource` (line 146 of `src/handler.js`). -/
def encodeURIComponent (s : String) : String :=
  String.join (s.data.map (fun c =>
    if isUriUnescapedChar c then String.singleton c
    else String.join ((utf8ByteList c.toNat).map percentEncodeByte)))

/-- Observable actions of one `moveFile` invocation. -/
inductive MFAction where
  | callCopyObject (bucket key copySource : String)
  | callWaitForObjectExists (bucket key : String)
  | callDeleteObject (bucket key : String)
  | ctxFail
  | ctxSucceed (bucketName objectKey newLocation : String)
deriving DecidableEq

/-- The run of `module.exports.moveFile` (lines 133-173 of `src/handler.js`):
the action trace paired with the final object-store state, the store being
the set (list) of `(bucket, key)` pairs present. The three callback outcomes
of copy / wait / delete are explicit parameters; a successful copy makes the
destination object exist, a successful delete removes the source object, and
any error fires the final callback, which calls `context.fail()` and issues
no further store call. -/
def moveFileRun (store : List (String × String)) (event : FileEvent)
    (targetBucket : String) (copyResult waitResult deleteResult : Except JsError Unit) :
    List MFAction × List (String × String) :=
  let objectKey := event.objectKey
  let bucketName := event.bucketName
  let newLocation := "processed/" ++ objectKey
  let copyCall := MFAction.callCopyObject targetBucket newLocation
    (bucketName ++ "/" ++ encodeURIComponent objectKey)
  match copyResult with
  | Except.error _ => ([copyCall, MFAction.ctxFail], store)
  | Except.ok _ =>
    let store1 := (targetBucket, newLocation) :: store
    match waitResult with
    | Except.error _ =>
      ([copyCall, MFAction.callWaitForObjectExists targetBucket newLocation,
        MFAction.ctxFail], store1)
    | Except.ok _ =>
      match deleteResult with
      | Except.error _ =>
        ([copyCall, MFAction.callWaitForObjectExists targetBucket newLocation,
          MFAction.callDeleteObject bucketName objectKey, MFAction.ctxFail], store1)
      | Except.ok _ =>
        ([copyCall, MFAction.callWaitForObjectExists targetBucket newLocation,
          MFAction.callDeleteObject bucketName objectKey,
          MFAction.ctxSucceed bucketName objectKey newLocation],
         store1.filter (fun o => !(o == (bucketName, objectKey))))

/-- Is this action a `deleteObject` call? -/
def isMFDelete : MFAction → Bool
  | MFAction.callDeleteObject _ _ => true
  | _ => false

/-- The `deleteObject` calls issued during one `moveFile` invocation. -/
def mfDeleteCalls (t : List MFAction) : List MFAction := t.filter isMFDelete

/-- Observable actions of one `sendEmail` invocation. -/
inductive SEAction where
  | callSendEmail (toAddresses : List String) (source subject body : String)
  | ctxFail
  | ctxSucceed (value : String)
deriving DecidableEq

/-- The action trace of `module.exports.sendEmail` (lines 185-217 of
`src/handler.js`), given the object key of the event and
`process.env.DEST_EMAIL`: a single `ses.sendEmail` call with fixed subject
`"File processed"`, body `'Processed file ' + objectKey`, and the configured
address as both recipient and source; on a send error the final callback
calls `context.fail()`, otherwise `context.succeed("OK")`. -/
def sendEmailTrace (objectKey destEmail : String)
    (sendResult : Except JsError Unit) : List SEAction :=
  SEAction.callSendEmail [destEmail] destEmail "File processed"
      ("Processed file " ++ objectKey) ::
    match sendResult with
    | Except.error _ => [SEAction.ctxFail]
    | Except.ok _ => [SEAction.ctxSucceed "OK"]

/-- Is this action an `ses.sendEmail` call? -/
def isSESend : SEAction → Bool
  | SEAction.callSendEmail _ _ _ _ => true
  | _ => false

/-- The send calls issued during one `sendEmail` invocation. -/
def seSendCalls (t : List SEAction) : List SEAction := t.filter isSESend

/-- C1: for every ordered list of steps run by the Stage Executor
(`async.waterfall`), step `i + 1` is invoked only after step `i`'s completion
callback has fired with a non-error result (the trace contains
`completed i (ok r)` strictly before `started (i + 1)`), and if step `i`
signals an error through its callback then no later step is ever invoked and
the chain's failure callback fires with that very error. -/
theorem C1_stage_executor_sequencing {ε ρ : Type}
    (steps : List (ρ → Waterfall.StepSignal ε ρ)) (acc : ρ) :
    (∀ j, Waterfall.WEvent.started (j + 1) ∈ Waterfall.waterfallTrace steps 0 acc →
        ∃ r, List.Sublist
          [Waterfall.WEvent.completed j (Waterfall.StepSignal.ok r),
           Waterfall.WEvent.started (j + 1)]
          (Waterfall.waterfallTrace steps 0 acc)) ∧
    (∀ i e, Waterfall.WEvent.completed i (Waterfall.StepSignal.err e) ∈
        Waterfall.waterfallTrace steps 0 acc →
        Waterfall.WEvent.finalErr e ∈ Waterfall.waterfallTrace steps 0 acc ∧
          ∀ j, i < j →
            Waterfall.WEvent.started j ∉ Waterfall.waterfallTrace steps 0 acc) :=
  ⟨fun j h => Waterfall.started_after steps 0 acc j (Nat.zero_le j) h,
   fun i e h => Waterfall.err_shortcircuit steps 0 acc i e h⟩

/-- A concrete three-step chain whose middle step signals a callback error,
used to exercise `C1_stage_executor_sequencing`. -/
def demoSteps : List (Nat → Waterfall.StepSignal String Nat) :=
  [fun _ => Waterfall.StepSignal.ok 1,
   fun _ => Waterfall.StepSignal.err "boom",
   fun _ => Waterfall.StepSignal.ok 7]

theorem C1_stage_executor_sequencing_witness :
    (∃ r, List.Sublist
        [Waterfall.WEvent.completed 0 (Waterfall.StepSignal.ok r),
         Waterfall.WEvent.started 1]
        (Waterfall.waterfallTrace demoSteps 0 0)) ∧
    Waterfall.WEvent.finalErr "boom" ∈ Waterfall.waterfallTrace demoSteps 0 0 ∧
    Waterfall.WEvent.started 2 ∉ Waterfall.waterfallTrace demoSteps 0 0 :=
  ⟨(C1_stage_executor_sequencing demoSteps 0).1 0 (by decide),
   ((C1_stage_executor_sequencing demoSteps 0).2 1 "boom" (by decide)).1,
   ((C1_stage_executor_sequencing demoSteps 0).2 1 "boom" (by decide)).2 2 (by decide)⟩

/-- C4 counterexample: the claim says a synchronously raised failure — in
particular the bare string thrown during name lookup — is caught and routed
to the chain's terminal failure path. In fact, running `executeWorkflow` on a
Records event with a listing that lacks the requested name, the thrown bare
string escapes as an uncaught exception and no terminal completion signal
(`context.succeed`/`context.fail`) ever fires. -/
theorem C4_counterexample :
    EWAction.uncaughtException (JsError.str lookupFailureMessage) ∈
      executeWorkflowTrace (LambdaEvent.records [⟨"b", "k.csv"⟩]) "X"
        (Except.ok [⟨"Y", "A2"⟩]) (Except.ok ⟨"exec1"⟩) ∧
    ewTerminalSignals (executeWorkflowTrace (LambdaEvent.records [⟨"b", "k.csv"⟩]) "X"
        (Except.ok [⟨"Y", "A2"⟩]) (Except.ok ⟨"exec1"⟩)) = [] := by
  decide

/-- C4 amended: a failure signaled by passing an error value to a step's
callback — with an arbitrary error payload — short-circuits the chain and is
routed to the chain's final callback; but a failure raised synchronously
(such as the bare string thrown during name lookup) is NOT caught by the
executor: the chain is abandoned and its final callback, success or failure,
never fires, the exception escaping to the caller instead. -/
theorem C4_amended_error_channel {ε ρ : Type}
    (steps : List (ρ → Waterfall.StepSignal ε ρ)) (acc : ρ) :
    (∀ i e, Waterfall.WEvent.completed i (Waterfall.StepSignal.err e) ∈
        Waterfall.waterfallTrace steps 0 acc →
        Waterfall.WEvent.finalErr e ∈ Waterfall.waterfallTrace steps 0 acc) ∧
    (∀ e, Waterfall.WEvent.uncaught e ∈ Waterfall.waterfallTrace steps 0 acc →
        (∀ r, Waterfall.WEvent.finalOk r ∉ Waterfall.waterfallTrace steps 0 acc) ∧
        (∀ e2, Waterfall.WEvent.finalErr e2 ∉ Waterfall.waterfallTrace steps 0 acc)) :=
  ⟨fun i e h => (Waterfall.err_shortcircuit steps 0 acc i e h).1,
   fun e h => Waterfall.uncaught_no_final steps 0 acc e h⟩

/-- A concrete chain whose second step raises synchronously, as the lookup
step of `executeWorkflow` does. -/
def raisingSteps : List (Nat → Waterfall.StepSignal String Nat) :=
  [fun _ => Waterfall.StepSignal.ok 1,
   fun _ => Waterfall.StepSignal.raised "thrownString"]

theorem C4_amended_error_channel_witness :
    Waterfall.WEvent.finalOk 99 ∉ Waterfall.waterfallTrace raisingSteps 0 0 ∧
    Waterfall.WEvent.finalErr "thrownString" ∉
      Waterfall.waterfallTrace raisingSteps 0 0 :=
  ⟨((C4_amended_error_channel raisingSteps 0).2 "thrownString" (by decide)).1 99,
   ((C4_amended_error_channel raisingSteps 0).2 "thrownString" (by decide)).2 "thrownString"⟩

/-- C5 code-bug evidence: `executeWorkflow` hands its waterfall NO final
callback, so when a step fails through its callback — here `listStateMachines`
calling back with an error — the error is swallowed by the default no-op and
ZERO terminal completion signals fire, contradicting the required
exactly-once completion signaling. -/
theorem C5_zero_terminal_signals :
    ewTerminalSignals (executeWorkflowTrace (LambdaEvent.records [⟨"b", "k.csv"⟩]) "X"
        (Except.error (JsError.errObj "ServiceUnavailable")) (Except.ok ⟨"exec1"⟩)) = [] ∧
    ewTerminalSignals (executeWorkflowTrace (LambdaEvent.records [⟨"b", "k.csv"⟩]) "X"
        (Except.ok [⟨"X", "A1"⟩]) (Except.error (JsError.errObj "Throttling"))) = [] := by
  decide

theorem findArn_eq_find (l : List SMDescriptor) (n : String) :
    findArn l n = Option.map SMDescriptor.stateMachineArn
      (l.find? (fun d => d.name == n)) := by
  induction l with
  | nil => rfl
  | cons d rest ih =>
    by_cases hd : d.name = n
    · rw [List.find?_cons_of_pos _ (by simp [hd])]
      simp [findArn, hd]
    · rw [List.find?_cons_of_neg _ (by simp [hd])]
      simp [findArn, hd, ih]

/-- C2: resolving a workflow name scans the listing linearly and returns the
arn of the FIRST descriptor whose name equals the requested one (concretely
`A1` for `"X"` over `[{name:X,arn:A1},{name:Y,arn:A2}]`); when no descriptor
matches, the invocation fails with the lookup-failure string and
`startExecution` is never invoked; and a `startExecution` call is only ever
issued with the arn that the completed resolution step produced, so
resolution fully completes before the start step begins. -/
theorem C2_resolve_before_start :
    (∀ l n, findArn l n = Option.map SMDescriptor.stateMachineArn
        (l.find? (fun d => d.name == n))) ∧
    findArn [⟨"X", "A1"⟩, ⟨"Y", "A2"⟩] "X" = some "A1" ∧
    (∀ recs n machines sr, findArn machines n = none →
        EWAction.uncaughtException (JsError.str lookupFailureMessage) ∈
          executeWorkflowTrace (LambdaEvent.records recs) n (Except.ok machines) sr ∧
        ewStartCalls (executeWorkflowTrace (LambdaEvent.records recs) n
          (Except.ok machines) sr) = []) ∧
    (∀ recs n machines sr a i,
        EWAction.callStartExecution a i ∈
          executeWorkflowTrace (LambdaEvent.records recs) n (Except.ok machines) sr →
        findArn machines n = some a) := by
  refine ⟨findArn_eq_find, by decide, ?_, ?_⟩
  · intro recs n machines sr hnone
    simp [executeWorkflowTrace, hnone, ewStartCalls, isEWStartCall, List.filter]
  · intro recs n machines sr a i hmem
    cases hfa : findArn machines n with
    | none => simp [executeWorkflowTrace, hfa] at hmem
    | some arn =>
      cases recs with
      | nil => simp [executeWorkflowTrace, hfa] at hmem
      | cons r rest =>
        cases sr with
        | error e =>
          simp [executeWorkflowTrace, hfa] at hmem
          rw [hmem.1]
        | ok out =>
          simp [executeWorkflowTrace, hfa] at hmem
          rw [hmem.1]

theorem C2_resolve_before_start_witness :
    EWAction.uncaughtException (JsError.str lookupFailureMessage) ∈
      executeWorkflowTrace (LambdaEvent.records [⟨"bkt", "file.csv"⟩]) "Z"
        (Except.ok [⟨"X", "A1"⟩, ⟨"Y", "A2"⟩]) (Except.ok ⟨"exec9"⟩) ∧
    ewStartCalls (executeWorkflowTrace (LambdaEvent.records [⟨"bkt", "file.csv"⟩]) "Z"
      (Except.ok [⟨"X", "A1"⟩, ⟨"Y", "A2"⟩]) (Except.ok ⟨"exec9"⟩)) = [] :=
  C2_resolve_before_start.2.2.1 [⟨"bkt", "file.csv"⟩] "Z"
    [⟨"X", "A1"⟩, ⟨"Y", "A2"⟩] (Except.ok ⟨"exec9"⟩) (by decide)

/-- C6: only the first entry of `event.Records` is consulted — the trace of
`executeWorkflow` is unchanged under any replacement of the remaining
entries — and every `startExecution` call carries the input serialized
exactly as `JSON.stringify` of the object literal with `objectKey` first and
`bucketName` second, built from that first record; concretely, for a single
record with bucket `b` and key `k.csv` against a listing holding the
requested name, the started execution's input is exactly
the JSON text with those two properties. -/
theorem C6_first_record_input :
    (∀ (r : S3Record) rest rest2 n lr sr,
        executeWorkflowTrace (LambdaEvent.records (r :: rest)) n lr sr =
          executeWorkflowTrace (LambdaEvent.records (r :: rest2)) n lr sr) ∧
    (∀ (r : S3Record) rest n lr sr a i,
        EWAction.callStartExecution a i ∈
          executeWorkflowTrace (LambdaEvent.records (r :: rest)) n lr sr →
        i = stringifyInput r.objectKey r.bucketName) ∧
    EWAction.callStartExecution "A1" "\x7b\"objectKey\":\"k.csv\",\"bucketName\":\"b\"\x7d" ∈
      executeWorkflowTrace (LambdaEvent.records [⟨"b", "k.csv"⟩]) "X"
        (Except.ok [⟨"X", "A1"⟩]) (Except.ok ⟨"exec1"⟩) := by
  refine ⟨?_, ?_, by decide⟩
  · intro r rest rest2 n lr sr
    cases lr with
    | error e => rfl
    | ok machines =>
      cases hfa : findArn machines n with
      | none => simp [executeWorkflowTrace, hfa]
      | some arn => simp [executeWorkflowTrace, hfa]
  · intro r rest n lr sr a i hmem
    cases lr with
    | error e => simp [executeWorkflowTrace] at hmem
    | ok machines =>
      cases hfa : findArn machines n with
      | none => simp [executeWorkflowTrace, hfa] at hmem
      | some arn =>
        cases sr with
        | error e =>
          simp [executeWorkflowTrace, hfa] at hmem
          rw [hmem.2]
        | ok out =>
          simp [executeWorkflowTrace, hfa] at hmem
          rw [hmem.2]

theorem C6_first_record_input_witness :
    "\x7b\"objectKey\":\"k.csv\",\"bucketName\":\"b\"\x7d" =
      stringifyInput "k.csv" "b" :=
  C6_first_record_input.2.1 ⟨"b", "k.csv"⟩ [] "X" (Except.ok [⟨"X", "A1"⟩])
    (Except.ok ⟨"exec1"⟩) "A1" "\x7b\"objectKey\":\"k.csv\",\"bucketName\":\"b\"\x7d"
    (by decide)

theorem filter_map_eq_nil {α β : Type} (p : β → Bool) (f : α → β) (l : List α)
    (h : ∀ a, p (f a) = false) : (l.map f).filter p = [] := by
  induction l with
  | nil => rfl
  | cons a as ih => simp [List.filter_cons, h, ih]

theorem filter_map_eq_self {α β : Type} (p : β → Bool) (f : α → β) (l : List α)
    (h : ∀ a, p (f a) = true) : (l.map f).filter p = l.map f := by
  induction l with
  | nil => rfl
  | cons a as ih => simp [List.filter_cons, h, ih]

theorem processFileTrace_ok (e : FileEvent) (content : String) (w : List Bool) :
    processFileTrace e (Except.ok ()) content w =
      PFAction.callWaitForObjectExists e.bucketName e.objectKey ::
        PFAction.callGetObject e.bucketName e.objectKey ::
          PFAction.ingestionNext ::
            PFAction.ctxSucceed e ::
              (((parseCsv content).map
                  (fun r => PFAction.callPutItem "sensor_data" (rowToItem r))) ++
                (((parseCsv content).zip w).map
                  (fun p => PFAction.writeSettled (rowToItem p.1) p.2))) := rfl

theorem pfTerminalSignals_processFileTrace (e : FileEvent) (wr : Except JsError Unit)
    (content : String) (w : List Bool) :
    pfTerminalSignals (processFileTrace e wr content w) =
      match wr with
      | Except.error _ => [PFAction.ctxFail "Execution failed"]
      | Except.ok _ => [PFAction.ctxSucceed e] := by
  cases wr with
  | error err =>
    simp [processFileTrace, pfTerminalSignals, List.filter_cons, isPFTerminal]
  | ok u =>
    cases u
    have h1 : ((parseCsv content).map
        (fun r => PFAction.callPutItem "sensor_data" (rowToItem r))).filter isPFTerminal = [] :=
      filter_map_eq_nil _ _ _ (fun a => rfl)
    have h2 : (((parseCsv content).zip w).map
        (fun p => PFAction.writeSettled (rowToItem p.1) p.2)).filter isPFTerminal = [] :=
      filter_map_eq_nil _ _ _ (fun a => rfl)
    simp [processFileTrace_ok, pfTerminalSignals, List.filter_cons, List.filter_append,
      isPFTerminal, h1, h2]

/-- C3: when the `objectExists` wait succeeds, the ingestion stage invokes
its continuation with success right after starting the stream decode — the
trace runs `getObject`, then `next(null)`, then `context.succeed` — each
eventual settlement of a fire-and-forget row write comes strictly after that
continuation fired, and the terminal signal of the pipeline is identical for
every assignment of per-row write outcomes: no row-write error is ever
surfaced, and `processFile` reports success regardless of whether any row was
persisted. -/
theorem C3_ingestion_completion (e : FileEvent) (content : String) (w w2 : List Bool) :
    List.Sublist
      [PFAction.callGetObject e.bucketName e.objectKey, PFAction.ingestionNext,
       PFAction.ctxSucceed e] (processFileTrace e (Except.ok ()) content w) ∧
    (∀ item b, PFAction.writeSettled item b ∈ processFileTrace e (Except.ok ()) content w →
        List.Sublist [PFAction.ingestionNext, PFAction.writeSettled item b]
          (processFileTrace e (Except.ok ()) content w)) ∧
    pfTerminalSignals (processFileTrace e (Except.ok ()) content w) =
      pfTerminalSignals (processFileTrace e (Except.ok ()) content w2) := by
  refine ⟨?_, ?_, ?_⟩
  · rw [processFileTrace_ok]
    exact List.Sublist.cons _ (List.Sublist.cons₂ _ (List.Sublist.cons₂ _
      (List.Sublist.cons₂ _ (List.nil_sublist _))))
  · intro item b hmem
    rw [processFileTrace_ok] at hmem ⊢
    rcases List.mem_cons.mp hmem with h0 | h1
    · exact absurd h0 (by simp)
    rcases List.mem_cons.mp h1 with h2 | h3
    · exact absurd h2 (by simp)
    rcases List.mem_cons.mp h3 with h4 | h5
    · exact absurd h4 (by simp)
    rcases List.mem_cons.mp h5 with h6 | h7
    · exact absurd h6 (by simp)
    exact List.Sublist.cons _ (List.Sublist.cons _ (List.Sublist.cons₂ _
      (List.Sublist.cons _ (List.singleton_sublist.mpr h7))))
  · rw [pfTerminalSignals_processFileTrace, pfTerminalSignals_processFileTrace]

theorem C3_ingestion_completion_witness :
    List.Sublist
      [PFAction.ingestionNext, PFAction.writeSettled (rowToItem ["s1", "100", "3.5"]) false]
      (processFileTrace ⟨"b", "k.csv"⟩ (Except.ok ()) "s1,100,3.5\n" [false]) :=
  (C3_ingestion_completion ⟨"b", "k.csv"⟩ "s1,100,3.5\n" [false] []).2.1
    (rowToItem ["s1", "100", "3.5"]) false (by decide)

/-- C7: for every delimited input stream, the ingester issues exactly one
`putItem` call per decoded row, to the fixed table `"sensor_data"`, mapping
field 0 to string attribute `sensor_id` and fields 1 and 2 to numeric
attributes `timestamp` and `value`; in particular the 2-row stream
`"s1,100,3.5\ns2,200,4.1\n"` yields exactly the 2 writes with attribute
values s1/100/3.5 and s2/200/4.1. -/
theorem C7_one_write_per_row :
    (∀ e content w,
        pfPutItemCalls (processFileTrace e (Except.ok ()) content w) =
          (parseCsv content).map
            (fun r => PFAction.callPutItem "sensor_data" (rowToItem r))) ∧
    pfPutItemCalls
        (processFileTrace ⟨"b", "k.csv"⟩ (Except.ok ()) "s1,100,3.5\ns2,200,4.1\n" []) =
      [PFAction.callPutItem "sensor_data"
         [("sensor_id", AttrValue.s (some "s1")), ("timestamp", AttrValue.n (some "100")),
          ("value", AttrValue.n (some "3.5"))],
       PFAction.callPutItem "sensor_data"
         [("sensor_id", AttrValue.s (some "s2")), ("timestamp", AttrValue.n (some "200")),
          ("value", AttrValue.n (some "4.1"))]] := by
  refine ⟨?_, by decide⟩
  intro e content w
  have h1 : ((parseCsv content).map
      (fun r => PFAction.callPutItem "sensor_data" (rowToItem r))).filter isPFPutItem =
      (parseCsv content).map (fun r => PFAction.callPutItem "sensor_data" (rowToItem r)) :=
    filter_map_eq_self _ _ _ (fun a => rfl)
  have h2 : (((parseCsv content).zip w).map
      (fun p => PFAction.writeSettled (rowToItem p.1) p.2)).filter isPFPutItem = [] :=
    filter_map_eq_nil _ _ _ (fun a => rfl)
  simp [pfPutItemCalls, processFileTrace_ok, List.filter_cons, List.filter_append,
    isPFPutItem, h1, h2]

/-- C10: whenever `processFile` reaches its terminal success signal, the
value it reports is exactly its input event, unchanged, regardless of the
stream content, the decoded rows, or the write outcomes. -/
theorem C10_success_passthrough (e : FileEvent) (wr : Except JsError Unit)
    (content : String) (w : List Bool) (v : FileEvent)
    (h : PFAction.ctxSucceed v ∈ processFileTrace e wr content w) : v = e := by
  have hv : PFAction.ctxSucceed v ∈ pfTerminalSignals (processFileTrace e wr content w) :=
    List.mem_filter.mpr ⟨h, by simp [isPFTerminal]⟩
  rw [pfTerminalSignals_processFileTrace] at hv
  cases wr with
  | error err => simp at hv
  | ok u =>
    cases u
    simp at hv
    exact hv

theorem C10_success_passthrough_witness :
    (⟨"b", "k.csv"⟩ : FileEvent) = ⟨"b", "k.csv"⟩ :=
  C10_success_passthrough ⟨"b", "k.csv"⟩ (Except.ok ()) "s1,100,3.5\n" [] ⟨"b", "k.csv"⟩
    (by decide)

/-- C8: relocation performs exactly three store operations strictly in
order — copy the source object to key `processed/` + objectKey in the target
bucket, wait for that destination key to exist, delete the source — and a
failure at the copy or at the existence-wait means the source delete is never
issued: after a failed wait the store still holds everything it held before
(the source object included) plus the already-copied destination object,
a partial-completion state with no compensation. -/
theorem C8_relocation_protocol :
    (∀ store (e : FileEvent) tb,
        (moveFileRun store e tb (Except.ok ()) (Except.ok ()) (Except.ok ())).1 =
          [MFAction.callCopyObject tb ("processed/" ++ e.objectKey)
             (e.bucketName ++ "/" ++ encodeURIComponent e.objectKey),
           MFAction.callWaitForObjectExists tb ("processed/" ++ e.objectKey),
           MFAction.callDeleteObject e.bucketName e.objectKey,
           MFAction.ctxSucceed e.bucketName e.objectKey ("processed/" ++ e.objectKey)]) ∧
    (∀ store (e : FileEvent) tb err dr,
        mfDeleteCalls (moveFileRun store e tb (Except.ok ()) (Except.error err) dr).1 = [] ∧
        (moveFileRun store e tb (Except.ok ()) (Except.error err) dr).2 =
          (tb, "processed/" ++ e.objectKey) :: store) ∧
    (∀ store (e : FileEvent) tb cerr wr dr,
        mfDeleteCalls (moveFileRun store e tb (Except.error cerr) wr dr).1 = [] ∧
        (moveFileRun store e tb (Except.error cerr) wr dr).2 = store) ∧
    moveFileRun [("src", "f.csv")] ⟨"src", "f.csv"⟩ "dst"
        (Except.ok ()) (Except.error (JsError.errObj "timeout")) (Except.ok ()) =
      ([MFAction.callCopyObject "dst" "processed/f.csv" "src/f.csv",
        MFAction.callWaitForObjectExists "dst" "processed/f.csv", MFAction.ctxFail],
       [("dst", "processed/f.csv"), ("src", "f.csv")]) := by
  refine ⟨fun store e tb => rfl, fun store e tb err dr => ⟨rfl, rfl⟩,
    fun store e tb cerr wr dr => ⟨rfl, rfl⟩, by decide⟩

/-- C9: the notification step sends exactly one message per invocation —
whatever the send outcome, the trace holds exactly one `sendEmail` call, so
there is no retry — with subject `"File processed"`, a body that is the text
`"Processed file "` followed by the processed object's key (hence containing
the key), and the configured destination address as sole recipient; the
stage fails on a send error and succeeds with `"OK"` otherwise. -/
theorem C9_notification :
    (∀ objectKey destEmail sr,
        seSendCalls (sendEmailTrace objectKey destEmail sr) =
          [SEAction.callSendEmail [destEmail] destEmail "File processed"
             ("Processed file " ++ objectKey)]) ∧
    (∀ objectKey, ∃ pre, "Processed file " ++ objectKey = pre ++ objectKey) ∧
    (∀ objectKey destEmail err,
        sendEmailTrace objectKey destEmail (Except.error err) =
          [SEAction.callSendEmail [destEmail] destEmail "File processed"
             ("Processed file " ++ objectKey), SEAction.ctxFail]) ∧
    (∀ objectKey destEmail,
        sendEmailTrace objectKey destEmail (Except.ok ()) =
          [SEAction.callSendEmail [destEmail] destEmail "File processed"
             ("Processed file " ++ objectKey), SEAction.ctxSucceed "OK"]) ∧
    sendEmailTrace "f.csv" "a@b.com" (Except.ok ()) =
      [SEAction.callSendEmail ["a@b.com"] "a@b.com" "File processed" "Processed file f.csv",
       SEAction.ctxSucceed "OK"] := by
  refine ⟨?_, fun objectKey => ⟨"Processed file ", rfl⟩,
    fun objectKey destEmail err => rfl, fun objectKey destEmail => rfl, by decide⟩
  intro objectKey destEmail sr
  cases sr with
  | error err => rfl
  | ok u => rfl

end StepFunctionsDemo
